import Mathlib

/-!
# idlesync: receive handler, client registry, broadcast and dotted-quad parser

A shallow embedding of `src/idlesync.cpp`.

* Machine integers are `Nat` / `Int`.  `long int idle`, `long int data` and `int timeout`
  are only compared, never combined arithmetically, so they are plain `Int`.  An IPv4
  address is the host value of the 32-bit field `in_addr.s_addr`, a `Nat`.
* The program runs on one run loop; a callback is a function from the globals it reads
  and the values the operating system hands it to the new globals and the list of
  observable actions (`wakeUp()` and `sendto`).  `log` output is not an observable action.
* C strings are `List Char`; the end of the list is the terminating NUL.
* `bigEndian` is the byte order of the host, which `htonl` and `inet_ntoa` depend on.
-/

namespace IdleSync

/-! ## Constants -/

/-- `#define PORT 3030` -/
def PORT : Nat := 3030

/-- `#define MAX_CLIENTS 8` -/
def MAX_CLIENTS : Nat := 8

/-- `sizeof(long int)` on the LP64 targets of the program: the size of the receive buffer
`data` and of every datagram `sockSend` emits. -/
def sizeofLong : Nat := 8

/-- IOKit constant `kIOMessageDeviceWillPowerOff`, `iokit_common_msg(0x210)` in
`IOKit/IOMessage.h`. -/
def kIOMessageDeviceWillPowerOff : Nat := 0xe0000210

/-- IOKit constant `kIOMessageDeviceHasPoweredOn`, `iokit_common_msg(0x230)` in
`IOKit/IOMessage.h`. -/
def kIOMessageDeviceHasPoweredOn : Nat := 0xe0000230

/-! ## libc helpers used by `sockAddr` and `sockSend` -/

/-- Reversal of the four bytes of a 32-bit value. -/
def bswap32 (x : Nat) : Nat :=
  (x % 256) * 2 ^ 24 + (x / 2 ^ 8 % 256) * 2 ^ 16 + (x / 2 ^ 16 % 256) * 2 ^ 8 + x / 2 ^ 24 % 256

/-- libc `htonl`: the argument is converted to `uint32_t`; the identity on a big-endian
host, a byte swap on a little-endian one. -/
def htonl (bigEndian : Bool) (x : Nat) : Nat :=
  if bigEndian then x % 2 ^ 32 else bswap32 (x % 2 ^ 32)

/-- libc `ntohl`, the same permutation of bytes as `htonl`. -/
def ntohl (bigEndian : Bool) (x : Nat) : Nat := htonl bigEndian x

/-- The four bytes of `s_addr` in network order (the order they have in memory and on the
wire), first byte first. -/
def netBytes (bigEndian : Bool) (s_addr : Nat) : List Nat :=
  let h := ntohl bigEndian s_addr
  [h / 2 ^ 24 % 256, h / 2 ^ 16 % 256, h / 2 ^ 8 % 256, h % 256]

/-- libc `isdigit` on a `char`. -/
def isdigit (c : Char) : Bool := decide ('0' ≤ c ∧ c ≤ '9')

/-- Digit loop of libc `atoi`: accumulates decimal digits and stops at the first other
character. -/
def atoiDigits : List Char → Int → Int
  | [], acc => acc
  | c :: cs, acc =>
    if isdigit c then atoiDigits cs (acc * 10 + ((c.toNat : Int) - 48)) else acc

/-- libc `atoi` on the buffer `buf` of `sockAddr`.  The buffer only ever holds characters
that passed `isdigit`, so the leading white space and sign that `atoi` accepts never occur. -/
def atoi (buf : List Char) : Int := atoiDigits buf 0

/-- The text of one `%u` conversion: decimal, no leading zeros. -/
def decimal (n : Nat) : List Char := Nat.toDigits 10 n

/-- Dotted-quad text of four octets, `"a.b.c.d"`. -/
def dottedQuad (a b c d : Nat) : List Char :=
  decimal a ++ '.' :: (decimal b ++ '.' :: (decimal c ++ '.' :: decimal d))

/-- libc `inet_ntoa`: the four bytes of the address in network order, each in decimal,
separated by dots. -/
def inet_ntoa (bigEndian : Bool) (s_addr : Nat) : List Char :=
  let h := ntohl bigEndian s_addr
  dottedQuad (h / 2 ^ 24 % 256) (h / 2 ^ 16 % 256) (h / 2 ^ 8 % 256) (h % 256)

/-! ## `sockAddr` (lines 125-158) -/

/-- How the inner `while` loop of `sockAddr` is left: by `return 0`, or by falling out of
the loop (condition false, or `break`) with the buffer, the count and the read position. -/
inductive Scan where
  | ret0 : Scan
  | exit (buf : List Char) (count : Nat) (str : List Char) : Scan
deriving DecidableEq, Repr

/-- The loop `while (*str != '.' && *str && count < 4)` of `sockAddr`, for octet number
`i`: copies digits from `str` to `buf`. -/
def scanOctet (i : Nat) : List Char → List Char → Nat → Scan
  | [], buf, count => Scan.exit buf count []
  | c :: rest, buf, count =>
    if c ≠ '.' ∧ c ≠ Char.ofNat 0 ∧ count < 4 then
      if !isdigit c then
        -- Last octet may be terminated with non-digit
        if i = 3 then Scan.exit buf count (c :: rest) else Scan.ret0
      else scanOctet i rest (buf ++ [c]) (count + 1)
    else Scan.exit buf count (c :: rest)

/-- The loop `for (i = 0; i < 4; i++)` of `sockAddr` with `n` iterations left; `none` is an
early `return 0`, `some ipaddr` the accumulator when the loop is done.  `str++` past the
terminating NUL is modelled as staying on the terminator (only reached on texts with fewer
than four octets, which then fail the `count == 0` test). -/
def sockAddrLoop : Nat → Nat → List Char → Nat → Option Nat
  | 0, _, _, ipaddr => some ipaddr
  | n + 1, i, str, ipaddr =>
    match scanOctet i str [] 0 with
    | Scan.ret0 => none
    | Scan.exit buf count str1 =>
      if count ≥ 4 ∨ count = 0 then none
      else
        let octet := atoi buf
        if octet < 0 ∨ octet > 255 then none
        else sockAddrLoop n (i + 1) str1.tail ((ipaddr <<< 8 ||| octet.toNat) % 2 ^ 64)

/-- `u_long sockAddr(const char *str)`: parses a dotted quad and returns it in network
byte order, or 0. -/
def sockAddr (bigEndian : Bool) (str : List Char) : Nat :=
  match sockAddrLoop 4 0 str 0 with
  | none => 0
  | some ipaddr => htonl bigEndian ipaddr

/-! ## Globals, inputs and observable actions -/

/-- `static in_addr clients[MAX_CLIENTS]`: the `s_addr` of every slot, slot 0 first. -/
structure Clients where
  slots : List Nat
  size_eq : slots.length = MAX_CLIENTS
deriving DecidableEq

/-- The zero-initialised array the program starts with. -/
def emptyClients : Clients := ⟨List.replicate MAX_CLIENTS 0, by simp⟩

/-- The globals the modelled functions read and write: `server` (`NULL` is `none`),
`timeout` and `clients`. -/
structure Globals where
  server : Option (List Char)
  timeout : Int
  clients : Clients
deriving DecidableEq

/-- Globals when the run loop starts: `server` and `timeout` as `main` set them from the
command line, `clients` all zero. -/
def startup (server : Option (List Char)) (timeout : Int) : Globals :=
  ⟨server, timeout, emptyClients⟩

/-- What `recvfrom(sock, &data, sizeof(data), ...)` leaves behind: its return value, the
value of `data` afterwards and the sender address `in->sin_addr.s_addr`. -/
structure Received where
  bytesRead : Int
  data : Int
  sin_addr : Nat
deriving DecidableEq

/-- Observable actions: a call of `wakeUp()`, and a `sendto` of one `long` to an address
and port. -/
inductive Action where
  | wakeUp : Action
  | sendto (s_addr : Nat) (port : Nat) (idle : Int) : Action
deriving DecidableEq, Repr

/-- A registered peer: the value of a slot that is not empty (`s_addr != 0`, the test of
`sockBroadcast`). -/
def stored (clients : Clients) (addr : Nat) : Prop := addr ≠ 0 ∧ addr ∈ clients.slots

instance (clients : Clients) (addr : Nat) : Decidable (stored clients addr) := by
  unfold stored; infer_instance

/-- The registered peers in slot order: the slots `sockBroadcast` does not skip. -/
def registered (clients : Clients) : List Nat := clients.slots.filter (fun c => c ≠ 0)

/-- Number of registered peers. -/
def cardinality (clients : Clients) : Nat := (registered clients).length

/-! ## `sockSend` (lines 160-175) -/

/-- `void sockSend(char *server, long int idle)`; `sock` is what `socket()` returned. -/
def sockSend (bigEndian : Bool) (sock : Int) (server : List Char) (idle : Int) : List Action :=
  if sock = -1 then []
  else [Action.sendto (sockAddr bigEndian server) PORT idle]

/-! ## `sockCallback` (lines 212-250) -/

/-- The loop of lines 237-244 over the slots from index `i` on; the result is `(i, empty)`
when the loop is left (by `break` or because `i` reached `MAX_CLIENTS`). -/
def scanClients (addr : Nat) : List Nat → Nat → Int → Nat × Int
  | [], i, empty => (i, empty)
  | c :: rest, i, empty =>
    if c = addr then (i, empty)
    else scanClients addr rest (i + 1) (if c = 0 then (i : Int) else empty)

/-- Lines 236-248 of `sockCallback`: "Add client to the list". -/
def registerClient (clients : Clients) (addr : Nat) : Clients :=
  let r := scanClients addr clients.slots 0 (-1)
  if r.1 = MAX_CLIENTS ∧ r.2 ≠ -1 then
    ⟨clients.slots.set r.2.toNat addr, by simp [clients.size_eq]⟩
  else clients

/-- `sockCallback`: `rcv` is the outcome of `recvfrom`, `idle` the value of `getIdleTime()`
and `sock` what `socket()` returns inside `sockSend`. -/
def sockCallback (bigEndian : Bool) (g : Globals) (sock : Int) (idle : Int) (rcv : Received) :
    Globals × List Action :=
  if rcv.bytesRead ≤ 0 then (g, [])
  else
    match g.server with
    | some _ =>
      if idle > g.timeout ∧ rcv.data < idle then (g, [Action.wakeUp]) else (g, [])
    | none =>
      (⟨g.server, g.timeout, registerClient g.clients rcv.sin_addr⟩,
        sockSend bigEndian sock (inet_ntoa bigEndian rcv.sin_addr) idle)

/-! ## `sockBroadcast`, `sockPing`, `displayCallback` (lines 252-312) -/

/-- The loop of `sockBroadcast` over the slots from index `i` on; `socket i` is what
`socket()` returns in the iteration for slot `i`. -/
def sockBroadcastFrom (bigEndian : Bool) (socket : Nat → Int) (idle : Int) :
    List Nat → Nat → List Action
  | [], _ => []
  | c :: rest, i =>
    (if c ≠ 0 then sockSend bigEndian (socket i) (inet_ntoa bigEndian c) idle else [])
      ++ sockBroadcastFrom bigEndian socket idle rest (i + 1)

/-- `void sockBroadcast(long int idle)`. -/
def sockBroadcast (bigEndian : Bool) (socket : Nat → Int) (clients : Clients) (idle : Int) :
    List Action :=
  sockBroadcastFrom bigEndian socket idle clients.slots 0

/-- `void sockPing(long int idle)`, called only when `server` is set. -/
def sockPing (bigEndian : Bool) (sock : Int) (server : List Char) (idle : Int) : List Action :=
  sockSend bigEndian sock server idle

/-- `displayCallback`: `idle` is the value of `getIdleTime()`, `msgType` the IOKit message. -/
def displayCallback (bigEndian : Bool) (g : Globals) (socket : Nat → Int) (idle : Int)
    (msgType : Nat) : List Action :=
  if msgType = kIOMessageDeviceWillPowerOff ∨ msgType = kIOMessageDeviceHasPoweredOn then
    match g.server with
    | some server => sockPing bigEndian (socket 0) server idle
    | none =>
      sockBroadcast bigEndian socket g.clients
        (if msgType = kIOMessageDeviceWillPowerOff then idle else 0)
  else []

/-! ## Runs of the receive handler -/

/-- One activation of `sockCallback` with everything the environment supplies to it. -/
structure Arrival where
  sock : Int
  idle : Int
  rcv : Received
deriving DecidableEq

/-- The globals after the run loop delivered the arrivals, oldest first. -/
def receiveAll (bigEndian : Bool) (g : Globals) (arrivals : List Arrival) : Globals :=
  arrivals.foldl (fun g a => (sockCallback bigEndian g a.sock a.idle a.rcv).1) g

/-- The sender addresses of a run, oldest first. -/
def senders (arrivals : List Arrival) : List Nat := arrivals.map (fun a => a.rcv.sin_addr)

/-- A datagram of `sizeofLong` bytes from `addr`, carrying `data`, handled while
`getIdleTime()` is 0 and `socket()` returns descriptor 3. -/
def ping (addr : Nat) (data : Int) : Arrival := ⟨3, 0, ⟨sizeofLong, data, addr⟩⟩

/-- Datagrams from the nine distinct addresses 0, 1, ..., 8, in this order. -/
def ninePings : List Arrival := (List.range (MAX_CLIENTS + 1)).map (fun n => ping n 0)

/-- Datagrams from the nine distinct non-zero addresses 1, 2, ..., 9, in this order. -/
def ninePeers : List Arrival := (List.range (MAX_CLIENTS + 1)).map (fun n => ping (n + 1) 0)

/-- A Hub whose registry holds the eight addresses 1, ..., 8. -/
def fullHub : Globals := ⟨none, 180, ⟨[8, 7, 6, 5, 4, 3, 2, 1], rfl⟩⟩

/-- The address 10.0.0.1 as `s_addr` on a little-endian host. -/
def peerA : Nat := 16777226

/-- The address 10.0.0.2 as `s_addr` on a little-endian host. -/
def peerB : Nat := 33554442


/-! ## Lemmas: the dotted-quad parser -/

set_option maxRecDepth 100000 in
theorem decimal_octet_facts : ∀ n : Fin 256,
    (decimal n.val).all isdigit = true ∧ 1 ≤ (decimal n.val).length ∧
    (decimal n.val).length ≤ 3 ∧ atoi (decimal n.val) = n.val := by
  decide

theorem isdigit_ne_dot {c : Char} (h : isdigit c = true) : c ≠ '.' := by
  intro hc; subst hc; revert h; decide

theorem isdigit_ne_nul {c : Char} (h : isdigit c = true) : c ≠ Char.ofNat 0 := by
  intro hc; subst hc; revert h; decide

/-- A run of at most three digits followed by a dot or by the end of the text is copied to
the buffer, and the loop stops in front of what follows. -/
theorem scanOctet_digits (i : Nat) (rest : List Char)
    (hrest : rest = [] ∨ ∃ t, rest = '.' :: t) :
    ∀ (ds buf : List Char) (count : Nat), ds.all isdigit = true → count + ds.length < 4 →
      scanOctet i (ds ++ rest) buf count = Scan.exit (buf ++ ds) (count + ds.length) rest := by
  intro ds
  induction ds with
  | nil =>
    intro buf count _ _
    rcases hrest with h | ⟨t, h⟩ <;> subst h <;> simp [scanOctet]
  | cons c cs ih =>
    intro buf count hall hlen
    simp only [List.all_cons, Bool.and_eq_true] at hall
    simp only [List.length_cons] at hlen
    have h1 := isdigit_ne_dot hall.1
    have h2 := isdigit_ne_nul hall.1
    have h3 : count < 4 := by omega
    simp only [List.cons_append, scanOctet, h1, h2, h3, hall.1, ne_eq, not_false_eq_true,
      and_self, if_true, Bool.not_true, Bool.false_eq_true, if_false]
    rw [List.append_eq, ih (buf ++ [c]) (count + 1) hall.2 (by omega)]
    simp [Nat.add_comm, Nat.add_left_comm]

theorem shl8_or (x o : Nat) (ho : o < 256) : x <<< 8 ||| o = x * 256 + o := by
  rw [Nat.shiftLeft_eq]
  have : x * 2 ^ 8 ||| o = 2 ^ 8 * x + o := by
    rw [Nat.mul_comm]
    exact (Nat.mul_add_lt_is_or (by simpa using ho) x).symm
  simpa [Nat.mul_comm] using this

/-- One iteration of the `for` loop on a well-formed octet. -/
theorem sockAddrLoop_octet (n i o ipaddr : Nat) (rest : List Char) (ho : o < 256)
    (hrest : rest = [] ∨ ∃ t, rest = '.' :: t) :
    sockAddrLoop (n + 1) i (decimal o ++ rest) ipaddr
      = sockAddrLoop n (i + 1) rest.tail ((ipaddr * 256 + o) % 2 ^ 64) := by
  obtain ⟨hd, h1, h3, hv⟩ := decimal_octet_facts ⟨o, ho⟩
  simp only at hd h1 h3 hv
  have hs := scanOctet_digits i rest hrest (decimal o) [] 0 hd (by omega)
  simp only [List.nil_append, Nat.zero_add] at hs
  have hc1 : ¬ ((decimal o).length ≥ 4 ∨ (decimal o).length = 0) := by omega
  have hc2 : ¬ ((o : Int) < 0 ∨ (o : Int) > 255) := by omega
  simp only [sockAddrLoop, hs, hc1, hv, hc2, if_false, Int.toNat_ofNat, shl8_or _ _ ho]

theorem sockAddrLoop_dottedQuad (a b c d : Nat) (ha : a < 256) (hb : b < 256) (hc : c < 256)
    (hd : d < 256) :
    sockAddrLoop 4 0 (dottedQuad a b c d) 0 = some (a * 2 ^ 24 + b * 2 ^ 16 + c * 2 ^ 8 + d) := by
  unfold dottedQuad
  rw [sockAddrLoop_octet 3 0 a 0 _ ha (Or.inr ⟨_, rfl⟩), List.tail_cons,
    sockAddrLoop_octet 2 1 b _ _ hb (Or.inr ⟨_, rfl⟩), List.tail_cons,
    sockAddrLoop_octet 1 2 c _ _ hc (Or.inr ⟨_, rfl⟩), List.tail_cons]
  have := sockAddrLoop_octet 0 3 d ((((0 * 256 + a) % 2 ^ 64 * 256 + b) % 2 ^ 64 * 256 + c) % 2 ^ 64)
    [] hd (Or.inl rfl)
  rw [List.append_nil] at this
  rw [this]
  simp only [sockAddrLoop, List.tail_nil, Option.some.injEq]
  omega

theorem sockAddr_dottedQuad (bigEndian : Bool) (a b c d : Nat) (ha : a < 256) (hb : b < 256)
    (hc : c < 256) (hd : d < 256) :
    sockAddr bigEndian (dottedQuad a b c d)
      = htonl bigEndian (a * 2 ^ 24 + b * 2 ^ 16 + c * 2 ^ 8 + d) := by
  simp only [sockAddr, sockAddrLoop_dottedQuad a b c d ha hb hc hd]

theorem bswap32_bytes (a b c d : Nat) (ha : a < 256) (hb : b < 256) (hc : c < 256)
    (hd : d < 256) :
    bswap32 (a * 2 ^ 24 + b * 2 ^ 16 + c * 2 ^ 8 + d) = d * 2 ^ 24 + c * 2 ^ 16 + b * 2 ^ 8 + a := by
  unfold bswap32
  omega

theorem bytes_compose (x : Nat) (h : x < 2 ^ 32) :
    (x / 2 ^ 24 % 256) * 2 ^ 24 + (x / 2 ^ 16 % 256) * 2 ^ 16 + (x / 2 ^ 8 % 256) * 2 ^ 8
      + x % 256 = x := by
  omega

theorem bswap32_lt (x : Nat) : bswap32 x < 2 ^ 32 := by
  unfold bswap32
  omega

theorem htonl_lt (bigEndian : Bool) (x : Nat) : htonl bigEndian x < 2 ^ 32 := by
  cases bigEndian
  · simpa [htonl] using bswap32_lt _
  · simp only [htonl, if_true]
    omega

theorem bswap32_bswap32 (x : Nat) (h : x < 2 ^ 32) : bswap32 (bswap32 x) = x := by
  have h1 : bswap32 x
      = (x % 256) * 2 ^ 24 + (x / 2 ^ 8 % 256) * 2 ^ 16 + (x / 2 ^ 16 % 256) * 2 ^ 8
        + x / 2 ^ 24 % 256 := rfl
  rw [h1, bswap32_bytes _ _ _ _ (Nat.mod_lt _ (by norm_num)) (Nat.mod_lt _ (by norm_num))
    (Nat.mod_lt _ (by norm_num)) (Nat.mod_lt _ (by norm_num))]
  exact bytes_compose x h

theorem htonl_htonl (bigEndian : Bool) (x : Nat) (h : x < 2 ^ 32) :
    htonl bigEndian (htonl bigEndian x) = x := by
  cases bigEndian
  · simp only [htonl, Bool.false_eq_true, if_false]
    rw [Nat.mod_eq_of_lt h, Nat.mod_eq_of_lt (bswap32_lt x), bswap32_bswap32 x h]
  · simp only [htonl, if_true]
    omega

theorem netBytes_htonl (bigEndian : Bool) (a b c d : Nat) (ha : a < 256) (hb : b < 256)
    (hc : c < 256) (hd : d < 256) :
    netBytes bigEndian (htonl bigEndian (a * 2 ^ 24 + b * 2 ^ 16 + c * 2 ^ 8 + d))
      = [a, b, c, d] := by
  have hlt : a * 2 ^ 24 + b * 2 ^ 16 + c * 2 ^ 8 + d < 2 ^ 32 := by omega
  simp only [netBytes, ntohl, htonl_htonl bigEndian _ hlt, List.cons.injEq, and_true]
  omega

/-- Parsing what `inet_ntoa` printed gives the address back. -/
theorem sockAddr_inet_ntoa (bigEndian : Bool) (addr : Nat) (h : addr < 2 ^ 32) :
    sockAddr bigEndian (inet_ntoa bigEndian addr) = addr := by
  unfold inet_ntoa ntohl
  simp only
  rw [sockAddr_dottedQuad bigEndian _ _ _ _ (Nat.mod_lt _ (by norm_num))
    (Nat.mod_lt _ (by norm_num)) (Nat.mod_lt _ (by norm_num)) (Nat.mod_lt _ (by norm_num)),
    bytes_compose _ (htonl_lt bigEndian addr)]
  exact htonl_htonl bigEndian addr h

/-! ## Lemmas: the client registry -/

/-- The scan runs to the end and leaves `empty` alone on slots that hold neither the
address nor zero. -/
theorem scanClients_clean (addr : Nat) :
    ∀ (l : List Nat) (i : Nat) (empty : Int), addr ∉ l → 0 ∉ l →
      scanClients addr l i empty = (i + l.length, empty) := by
  intro l
  induction l with
  | nil => intro i empty _ _; simp [scanClients]
  | cons c cs ih =>
    intro i empty ha hz
    simp only [List.mem_cons, not_or] at ha hz
    have h1 : ¬ c = addr := fun h => ha.1 h.symm
    have h2 : ¬ c = 0 := fun h => hz.1 h.symm
    simp only [scanClients, h1, h2, if_false, ih (i + 1) empty ha.2 hz.2, List.length_cons]
    congr 1
    omega

/-- When the address is absent, `empty` ends as the index of the last zero slot. -/
theorem scanClients_lastZero (addr : Nat) (hne : addr ≠ 0) (l2 : List Nat) (h2 : addr ∉ l2)
    (hz : 0 ∉ l2) :
    ∀ (l1 : List Nat) (i : Nat) (empty : Int), addr ∉ l1 →
      scanClients addr (l1 ++ 0 :: l2) i empty
        = (i + l1.length + 1 + l2.length, ((i + l1.length : Nat) : Int)) := by
  intro l1
  induction l1 with
  | nil =>
    intro i empty _
    have h0 : ¬ (0 = addr) := fun h => hne h.symm
    simp only [List.nil_append, scanClients, h0, if_false, if_true,
      scanClients_clean addr l2 (i + 1) _ h2 hz, List.length_nil, Nat.add_zero]
  | cons c cs ih =>
    intro i empty ha
    simp only [List.mem_cons, not_or] at ha
    have h1 : ¬ c = addr := fun h => ha.1 h.symm
    simp only [List.cons_append, scanClients, h1, if_false, List.append_eq, ih (i + 1) _ ha.2,
      List.length_cons, Prod.mk.injEq]
    constructor <;> omega

/-- A stored address stops the scan before the end (`break`). -/
theorem scanClients_found (addr : Nat) :
    ∀ (l : List Nat) (i : Nat) (empty : Int), addr ∈ l →
      (scanClients addr l i empty).1 < i + l.length := by
  intro l
  induction l with
  | nil => intro i empty h; simp at h
  | cons c cs ih =>
    intro i empty h
    by_cases hc : c = addr
    · simp [scanClients, hc]
    · have hm : addr ∈ cs := by
        rcases List.mem_cons.1 h with h | h
        · exact absurd h.symm hc
        · exact h
      have := ih (i + 1) (if c = 0 then (i : Int) else empty) hm
      simp only [scanClients, hc, if_false, List.length_cons]
      omega

/-- Without a zero slot `empty` keeps its initial value. -/
theorem scanClients_noZero (addr : Nat) :
    ∀ (l : List Nat) (i : Nat) (empty : Int), 0 ∉ l →
      (scanClients addr l i empty).2 = empty := by
  intro l
  induction l with
  | nil => intro i empty _; simp [scanClients]
  | cons c cs ih =>
    intro i empty hz
    simp only [List.mem_cons, not_or] at hz
    have h2 : ¬ c = 0 := fun h => hz.1 h.symm
    by_cases hc : c = addr
    · simp [scanClients, hc]
    · simp only [scanClients, hc, h2, if_false, ih (i + 1) empty hz.2]

theorem exists_last_zero : ∀ (l : List Nat), 0 ∈ l →
    ∃ l1 l2, l = l1 ++ 0 :: l2 ∧ 0 ∉ l2 := by
  intro l
  induction l with
  | nil => intro h; simp at h
  | cons c cs ih =>
    intro h
    by_cases hcs : 0 ∈ cs
    · obtain ⟨l1, l2, he, hz⟩ := ih hcs
      exact ⟨c :: l1, l2, by simp [he], hz⟩
    · have hc : c = 0 := by
        rcases List.mem_cons.1 h with h | h
        · exact h.symm
        · exact absurd h hcs
      exact ⟨[], cs, by simp [hc], hcs⟩

/-- Registering an address that some slot already holds changes nothing. -/
theorem registerClient_of_mem (c : Clients) (addr : Nat) (h : addr ∈ c.slots) :
    registerClient c addr = c := by
  have := scanClients_found addr c.slots 0 (-1) h
  rw [c.size_eq] at this
  have hne : ¬ ((scanClients addr c.slots 0 (-1)).1 = MAX_CLIENTS ∧
      (scanClients addr c.slots 0 (-1)).2 ≠ -1) := by
    intro hh
    omega
  simp only [registerClient, hne, if_false]

/-- Registering into an array without a zero slot changes nothing. -/
theorem registerClient_full (c : Clients) (addr : Nat) (h : 0 ∉ c.slots) :
    registerClient c addr = c := by
  have := scanClients_noZero addr c.slots 0 (-1) h
  have hne : ¬ ((scanClients addr c.slots 0 (-1)).1 = MAX_CLIENTS ∧
      (scanClients addr c.slots 0 (-1)).2 ≠ -1) := by
    intro hh
    exact hh.2 this
  simp only [registerClient, hne, if_false]

/-- The address 0 is never stored: it matches the first empty slot, or there is none. -/
theorem registerClient_zero (c : Clients) : registerClient c 0 = c := by
  by_cases h : 0 ∈ c.slots
  · exact registerClient_of_mem c 0 h
  · exact registerClient_full c 0 h

/-- A new non-zero address goes into the last zero slot. -/
theorem registerClient_insert (c : Clients) (addr : Nat) (l1 l2 : List Nat)
    (hs : c.slots = l1 ++ 0 :: l2) (hz : 0 ∉ l2) (hne : addr ≠ 0) (hnew : addr ∉ c.slots) :
    (registerClient c addr).slots = l1 ++ addr :: l2 := by
  rw [hs] at hnew
  simp only [List.mem_append, List.mem_cons, not_or] at hnew
  have hscan := scanClients_lastZero addr hne l2 hnew.2.2 hz l1 0 (-1) hnew.1
  have hlen : l1.length + 1 + l2.length = MAX_CLIENTS := by
    have := c.size_eq
    rw [hs] at this
    simp only [List.length_append, List.length_cons] at this
    omega
  have hcond : (scanClients addr c.slots 0 (-1)).1 = MAX_CLIENTS ∧
      (scanClients addr c.slots 0 (-1)).2 ≠ -1 := by
    rw [hs, hscan]
    constructor
    · simp only [Nat.zero_add]; exact hlen
    · simp only [Nat.zero_add]; omega
  have hidx : (scanClients addr c.slots 0 (-1)).2.toNat = l1.length := by
    rw [hs, hscan]
    simp
  simp only [registerClient]
  rw [if_pos hcond]
  simp only [hidx]
  rw [hs]
  simp

/-- The three outcomes of the registration step. -/
theorem registerClient_cases (c : Clients) (addr : Nat) :
    registerClient c addr = c ∨
      (addr ≠ 0 ∧ addr ∉ c.slots ∧ ∃ l1 l2, c.slots = l1 ++ 0 :: l2 ∧ 0 ∉ l2 ∧
        (registerClient c addr).slots = l1 ++ addr :: l2) := by
  by_cases hm : addr ∈ c.slots
  · exact Or.inl (registerClient_of_mem c addr hm)
  · by_cases hz : 0 ∈ c.slots
    · have hne : addr ≠ 0 := fun h => hm (h ▸ hz)
      obtain ⟨l1, l2, hs, hz2⟩ := exists_last_zero c.slots hz
      exact Or.inr ⟨hne, hm, l1, l2, hs, hz2, registerClient_insert c addr l1 l2 hs hz2 hne hm⟩
    · exact Or.inl (registerClient_full c addr hz)

/-- Slots and registered peers after an insertion. -/
theorem registered_insert (c : Clients) (addr : Nat) (l1 l2 : List Nat)
    (hs : c.slots = l1 ++ 0 :: l2) (hne : addr ≠ 0)
    (hr : (registerClient c addr).slots = l1 ++ addr :: l2) :
    registered c = l1.filter (fun x => x ≠ 0) ++ l2.filter (fun x => x ≠ 0) ∧
    registered (registerClient c addr)
      = l1.filter (fun x => x ≠ 0) ++ addr :: l2.filter (fun x => x ≠ 0) := by
  constructor
  · simp [registered, hs]
  · simp [registered, hr, hne]

theorem mem_registered (c : Clients) (addr : Nat) : addr ∈ registered c ↔ stored c addr := by
  simp [registered, stored, and_comm]

/-- Registering the addresses of a list one after the other, each new and non-zero, into
the zero slots in front of the occupied ones. -/
theorem foldl_registerClient_order :
    ∀ (as : List Nat) (c : Clients) (m : Nat) (t : List Nat),
      c.slots = List.replicate m 0 ++ t → 0 ∉ t → as.Nodup →
      (∀ a ∈ as, a ≠ 0 ∧ a ∉ t) → as.length ≤ m →
      (as.foldl registerClient c).slots
        = List.replicate (m - as.length) 0 ++ (as.reverse ++ t) := by
  intro as
  induction as with
  | nil => intro c m t hs _ _ _ _; simpa using hs
  | cons a as ih =>
    intro c m t hs hz hnd hall hlen
    simp only [List.length_cons] at hlen
    obtain ⟨m1, rfl⟩ : ∃ m1, m = m1 + 1 := ⟨m - 1, by omega⟩
    have hs1 : c.slots = List.replicate m1 0 ++ 0 :: t := by
      rw [hs, List.replicate_add]
      simp
    have ha := hall a (List.mem_cons_self a as)
    have hnew : a ∉ c.slots := by
      rw [hs1]
      simp only [List.mem_append, List.mem_cons, List.mem_replicate, not_or]
      exact ⟨fun h => ha.1 h.2, ha.1, ha.2⟩
    have hr := registerClient_insert c a _ _ hs1 hz ha.1 hnew
    rw [List.nodup_cons] at hnd
    have hz1 : 0 ∉ a :: t := by
      simp only [List.mem_cons, not_or]
      exact ⟨fun h => ha.1 h.symm, hz⟩
    have hall1 : ∀ x ∈ as, x ≠ 0 ∧ x ∉ a :: t := by
      intro x hx
      have := hall x (List.mem_cons_of_mem a hx)
      refine ⟨this.1, ?_⟩
      simp only [List.mem_cons, not_or]
      exact ⟨fun h => hnd.1 (h ▸ hx), this.2⟩
    have := ih (registerClient c a) m1 (a :: t) hr hz1 hnd.2 hall1 (by omega)
    simp only [List.foldl_cons, this, List.length_cons, List.reverse_cons, List.append_assoc,
      List.singleton_append]
    congr 2
    omega

/-! ## Lemmas: the callbacks -/

theorem sockCallback_drop (bigEndian : Bool) (g : Globals) (sock idle : Int) (rcv : Received)
    (h : rcv.bytesRead ≤ 0) : sockCallback bigEndian g sock idle rcv = (g, []) := by
  simp [sockCallback, h]

theorem sockCallback_hub (bigEndian : Bool) (g : Globals) (sock idle : Int) (rcv : Received)
    (hs : g.server = none) (h : 0 < rcv.bytesRead) :
    sockCallback bigEndian g sock idle rcv
      = (⟨g.server, g.timeout, registerClient g.clients rcv.sin_addr⟩,
          sockSend bigEndian sock (inet_ntoa bigEndian rcv.sin_addr) idle) := by
  have h1 : ¬ rcv.bytesRead ≤ 0 := by omega
  simp only [sockCallback, h1, hs, if_false]

theorem sockCallback_satellite (bigEndian : Bool) (g : Globals) (sock idle : Int)
    (rcv : Received) (s : List Char) (hs : g.server = some s) (h : 0 < rcv.bytesRead) :
    sockCallback bigEndian g sock idle rcv
      = (g, if idle > g.timeout ∧ rcv.data < idle then [Action.wakeUp] else []) := by
  have h1 : ¬ rcv.bytesRead ≤ 0 := by omega
  simp only [sockCallback, h1, hs, if_false]
  split <;> rfl

theorem sockSend_ok (bigEndian : Bool) (sock : Int) (server : List Char) (idle : Int)
    (h : sock ≠ -1) :
    sockSend bigEndian sock server idle
      = [Action.sendto (sockAddr bigEndian server) PORT idle] := by
  simp [sockSend, h]

/-- A reply or broadcast datagram goes to the address that was printed. -/
theorem sockSend_inet_ntoa (bigEndian : Bool) (sock : Int) (addr : Nat) (idle : Int)
    (h : sock ≠ -1) (ha : addr < 2 ^ 32) :
    sockSend bigEndian sock (inet_ntoa bigEndian addr) idle
      = [Action.sendto addr PORT idle] := by
  rw [sockSend_ok bigEndian sock _ idle h, sockAddr_inet_ntoa bigEndian addr ha]

/-- The handler never touches `server` and `timeout`, and its registry is the old one or
the old one after the registration step. -/
theorem sockCallback_globals (bigEndian : Bool) (g : Globals) (sock idle : Int)
    (rcv : Received) :
    (sockCallback bigEndian g sock idle rcv).1.server = g.server ∧
    (sockCallback bigEndian g sock idle rcv).1.timeout = g.timeout ∧
    ((sockCallback bigEndian g sock idle rcv).1.clients = g.clients ∨
      (sockCallback bigEndian g sock idle rcv).1.clients
        = registerClient g.clients rcv.sin_addr) := by
  by_cases h : rcv.bytesRead ≤ 0
  · simp [sockCallback_drop bigEndian g sock idle rcv h]
  · cases hs : g.server with
    | none => simp [sockCallback_hub bigEndian g sock idle rcv hs (by omega), hs]
    | some s => simp [sockCallback_satellite bigEndian g sock idle rcv s hs (by omega), hs]

theorem receiveAll_cons (bigEndian : Bool) (g : Globals) (a : Arrival) (as : List Arrival) :
    receiveAll bigEndian g (a :: as)
      = receiveAll bigEndian (sockCallback bigEndian g a.sock a.idle a.rcv).1 as := rfl

theorem receiveAll_append (bigEndian : Bool) (g : Globals) (as bs : List Arrival) :
    receiveAll bigEndian g (as ++ bs)
      = receiveAll bigEndian (receiveAll bigEndian g as) bs := by
  simp [receiveAll, List.foldl_append]

theorem receiveAll_server (bigEndian : Bool) :
    ∀ (as : List Arrival) (g : Globals), (receiveAll bigEndian g as).server = g.server := by
  intro as
  induction as with
  | nil => intro g; rfl
  | cons a as ih =>
    intro g
    rw [receiveAll_cons, ih, (sockCallback_globals bigEndian g a.sock a.idle a.rcv).1]

/-- In Hub role the registry after a run of non-empty datagrams is the fold of the
registration step over the sender addresses. -/
theorem receiveAll_hub_clients (bigEndian : Bool) :
    ∀ (as : List Arrival) (g : Globals), g.server = none →
      (∀ a ∈ as, 0 < a.rcv.bytesRead) →
      (receiveAll bigEndian g as).clients
        = (senders as).foldl registerClient g.clients := by
  intro as
  induction as with
  | nil => intro g _ _; rfl
  | cons a as ih =>
    intro g hs hb
    unfold senders at ih
    have ha := hb a (List.mem_cons_self a as)
    rw [receiveAll_cons, ih _ (by rw [(sockCallback_globals bigEndian g a.sock a.idle a.rcv).1, hs])
      (fun x hx => hb x (List.mem_cons_of_mem a hx))]
    simp [senders, sockCallback_hub bigEndian g a.sock a.idle a.rcv hs ha]

/-- A registry without a zero slot survives every run unchanged. -/
theorem receiveAll_full (bigEndian : Bool) :
    ∀ (as : List Arrival) (g : Globals), 0 ∉ g.clients.slots →
      (receiveAll bigEndian g as).clients = g.clients := by
  intro as
  induction as with
  | nil => intro g _; rfl
  | cons a as ih =>
    intro g hz
    have hstep : (sockCallback bigEndian g a.sock a.idle a.rcv).1.clients = g.clients := by
      rcases (sockCallback_globals bigEndian g a.sock a.idle a.rcv).2.2 with h | h
      · exact h
      · rw [h, registerClient_full g.clients _ hz]
    rw [receiveAll_cons, ih _ (by rw [hstep]; exact hz), hstep]

/-- The registration step keeps the registered peers free of duplicates and within 32
bits. -/
theorem registerClient_invariant (c : Clients) (addr : Nat) (ha : addr < 2 ^ 32)
    (hnd : (registered c).Nodup) (hb : ∀ x ∈ c.slots, x < 2 ^ 32) :
    (registered (registerClient c addr)).Nodup ∧
      ∀ x ∈ (registerClient c addr).slots, x < 2 ^ 32 := by
  rcases registerClient_cases c addr with h | ⟨hne, hnew, l1, l2, hs, _, hr⟩
  · rw [h]; exact ⟨hnd, hb⟩
  · obtain ⟨e1, e2⟩ := registered_insert c addr l1 l2 hs hne hr
    constructor
    · rw [e2, List.nodup_middle, List.nodup_cons, ← e1]
      refine ⟨?_, hnd⟩
      intro hm
      exact hnew ((mem_registered c addr).1 hm).2
    · intro x hx
      rw [hr] at hx
      rw [hs] at hb
      simp only [List.mem_append, List.mem_cons] at hx hb
      rcases hx with hx | hx | hx
      · exact hb x (Or.inl hx)
      · exact hx ▸ ha
      · exact hb x (Or.inr (Or.inr hx))

theorem receiveAll_invariant (bigEndian : Bool) :
    ∀ (as : List Arrival) (g : Globals), (∀ a ∈ as, a.rcv.sin_addr < 2 ^ 32) →
      (registered g.clients).Nodup → (∀ x ∈ g.clients.slots, x < 2 ^ 32) →
      (registered (receiveAll bigEndian g as).clients).Nodup ∧
        ∀ x ∈ (receiveAll bigEndian g as).clients.slots, x < 2 ^ 32 := by
  intro as
  induction as with
  | nil => intro g _ hnd hb; exact ⟨hnd, hb⟩
  | cons a as ih =>
    intro g hall hnd hb
    have ha := hall a (List.mem_cons_self a as)
    have hstep : (registered (sockCallback bigEndian g a.sock a.idle a.rcv).1.clients).Nodup ∧
        ∀ x ∈ (sockCallback bigEndian g a.sock a.idle a.rcv).1.clients.slots, x < 2 ^ 32 := by
      rcases (sockCallback_globals bigEndian g a.sock a.idle a.rcv).2.2 with h | h
      · rw [h]; exact ⟨hnd, hb⟩
      · rw [h]; exact registerClient_invariant g.clients _ ha hnd hb
    rw [receiveAll_cons]
    exact ih _ (fun x hx => hall x (List.mem_cons_of_mem a hx)) hstep.1 hstep.2

/-- With working sockets the broadcast is one datagram per non-zero slot, in slot order. -/
theorem sockBroadcastFrom_eq (bigEndian : Bool) (socket : Nat → Int) (idle : Int)
    (hsock : ∀ i, socket i ≠ -1) :
    ∀ (l : List Nat) (i : Nat), (∀ x ∈ l, x < 2 ^ 32) →
      sockBroadcastFrom bigEndian socket idle l i
        = (l.filter (fun x => x ≠ 0)).map (fun a => Action.sendto a PORT idle) := by
  intro l
  induction l with
  | nil => intro i _; rfl
  | cons c cs ih =>
    intro i hb
    have hc := hb c (List.mem_cons_self c cs)
    have hcs := ih (i + 1) (fun x hx => hb x (List.mem_cons_of_mem c hx))
    by_cases h0 : c = 0
    · simp [sockBroadcastFrom, h0, hcs]
    · simp [sockBroadcastFrom, h0, hcs, sockSend_inet_ntoa bigEndian (socket i) c idle (hsock i) hc]

theorem sockBroadcast_eq (bigEndian : Bool) (socket : Nat → Int) (idle : Int)
    (hsock : ∀ i, socket i ≠ -1) (c : Clients) (hb : ∀ x ∈ c.slots, x < 2 ^ 32) :
    sockBroadcast bigEndian socket c idle
      = (registered c).map (fun a => Action.sendto a PORT idle) :=
  sockBroadcastFrom_eq bigEndian socket idle hsock c.slots 0 hb

theorem startup_invariant (server : Option (List Char)) (timeout : Int) :
    (registered (startup server timeout).clients).Nodup ∧
      ∀ x ∈ (startup server timeout).clients.slots, x < 2 ^ 32 := by
  constructor
  · simp [registered, startup, emptyClients]
  · intro x hx
    simp only [startup, emptyClients, List.mem_replicate] at hx
    rw [hx.2]
    norm_num

theorem zero_mem_of_cardinality_lt (c : Clients) (h : cardinality c < MAX_CLIENTS) :
    0 ∈ c.slots := by
  unfold cardinality registered at h
  rw [← c.size_eq, List.length_filter_lt_length_iff_exists] at h
  obtain ⟨x, hx, hp⟩ := h
  simp only [ne_eq, decide_not, Bool.not_eq_true', decide_eq_false_iff_not, not_not] at hp
  exact hp ▸ hx

theorem zero_not_mem_of_cardinality_eq (c : Clients) (h : cardinality c = MAX_CLIENTS) :
    0 ∉ c.slots := by
  unfold cardinality registered at h
  rw [← c.size_eq, List.filter_length_eq_length] at h
  intro hz
  have := h 0 hz
  simp at this

/-- In Hub role, up to `MAX_CLIENTS` distinct non-zero senders fill the array from the last
slot downwards. -/
theorem receiveAll_upto_max (bigEndian : Bool) (timeout : Int) (arrivals : List Arrival)
    (hrecv : ∀ a ∈ arrivals, 0 < a.rcv.bytesRead) (hdistinct : (senders arrivals).Nodup)
    (hnonzero : ∀ x ∈ senders arrivals, x ≠ 0) (hk : arrivals.length ≤ MAX_CLIENTS) :
    (receiveAll bigEndian (startup none timeout) arrivals).clients.slots
      = List.replicate (MAX_CLIENTS - arrivals.length) 0 ++ (senders arrivals).reverse := by
  rw [receiveAll_hub_clients bigEndian arrivals _ rfl hrecv]
  have := foldl_registerClient_order (senders arrivals) (startup none timeout).clients
    MAX_CLIENTS [] (by simp [startup, emptyClients]) (by simp) hdistinct
    (fun a ha => ⟨hnonzero a ha, by simp⟩) (by simpa [senders] using hk)
  simpa [senders] using this

theorem registered_upto_max (bigEndian : Bool) (timeout : Int) (arrivals : List Arrival)
    (hrecv : ∀ a ∈ arrivals, 0 < a.rcv.bytesRead) (hdistinct : (senders arrivals).Nodup)
    (hnonzero : ∀ x ∈ senders arrivals, x ≠ 0) (hk : arrivals.length ≤ MAX_CLIENTS) :
    registered (receiveAll bigEndian (startup none timeout) arrivals).clients
      = (senders arrivals).reverse := by
  unfold registered
  rw [receiveAll_upto_max bigEndian timeout arrivals hrecv hdistinct hnonzero hk,
    List.filter_append]
  have h1 : (List.replicate (MAX_CLIENTS - arrivals.length) 0).filter (fun c => c ≠ 0) = [] := by
    simp
  have h2 : (senders arrivals).reverse.filter (fun c => c ≠ 0) = (senders arrivals).reverse := by
    rw [List.filter_eq_self]
    intro a ha
    simpa using hnonzero a (List.mem_reverse.1 ha)
  rw [h1, h2, List.nil_append]

/-- In Hub role, of `MAX_CLIENTS` or more distinct non-zero senders the first `MAX_CLIENTS`
fill the array and the others are not stored. -/
theorem receiveAll_beyond_max (bigEndian : Bool) (timeout : Int) (arrivals : List Arrival)
    (hrecv : ∀ a ∈ arrivals, 0 < a.rcv.bytesRead) (hdistinct : (senders arrivals).Nodup)
    (hnonzero : ∀ x ∈ senders arrivals, x ≠ 0) (hk : MAX_CLIENTS ≤ arrivals.length) :
    (receiveAll bigEndian (startup none timeout) arrivals).clients.slots
      = ((senders arrivals).take MAX_CLIENTS).reverse := by
  have hsplit : arrivals = arrivals.take MAX_CLIENTS ++ arrivals.drop MAX_CLIENTS :=
    (List.take_append_drop MAX_CLIENTS arrivals).symm
  have hst : senders (arrivals.take MAX_CLIENTS) = (senders arrivals).take MAX_CLIENTS := by
    simp [senders, List.map_take]
  have hlen : (arrivals.take MAX_CLIENTS).length = MAX_CLIENTS := by
    simp [List.length_take, hk]
  have h8 := receiveAll_upto_max bigEndian timeout (arrivals.take MAX_CLIENTS)
    (fun a ha => hrecv a (List.mem_of_mem_take ha))
    (by rw [hst]; exact hdistinct.sublist (List.take_sublist _ _))
    (by rw [hst]; exact fun x hx => hnonzero x (List.mem_of_mem_take hx))
    (by omega)
  rw [hlen, Nat.sub_self, List.replicate_zero, List.nil_append, hst] at h8
  have hz : 0 ∉ (receiveAll bigEndian (startup none timeout)
      (arrivals.take MAX_CLIENTS)).clients.slots := by
    rw [h8]
    intro h0
    exact hnonzero 0 (List.mem_of_mem_take (List.mem_reverse.1 h0)) rfl
  rw [hsplit, receiveAll_append, receiveAll_full bigEndian _ _ hz, h8, ← hsplit]

theorem registerClient_idem (c : Clients) (addr : Nat) :
    registerClient (registerClient c addr) addr = registerClient c addr := by
  rcases registerClient_cases c addr with h | ⟨_, _, l1, l2, _, _, hr⟩
  · rw [h, h]
  · exact registerClient_of_mem _ addr (by rw [hr]; simp)

/-! ## The claims -/

/-- C1: in Satellite role (`server` set), for every datagram with `bytesRead > 0` carrying
`rcv.data`, every local idle sample and every timeout, `sockCallback` calls `wakeUp()`
exactly once if `localIdle > timeout` and `rcv.data < localIdle` and not at all otherwise;
equal idle values never wake; the triples (localIdle, peerIdle, timeout) (200,100,180) and
(181,180,180) wake, (200,200,180) and (150,50,180) do not. -/
theorem C1_sockCallback_wake_rule (bigEndian : Bool) (g : Globals) (hub : List Char)
    (sock localIdle : Int) (rcv : Received)
    (hrole : g.server = some hub) (hrecv : 0 < rcv.bytesRead) :
    (sockCallback bigEndian g sock localIdle rcv).2
        = (if localIdle > g.timeout ∧ rcv.data < localIdle then [Action.wakeUp] else []) ∧
    (sockCallback bigEndian g sock localIdle rcv).2.count Action.wakeUp
        = (if localIdle > g.timeout ∧ rcv.data < localIdle then 1 else 0) ∧
    (rcv.data = localIdle →
      (sockCallback bigEndian g sock localIdle rcv).2.count Action.wakeUp = 0) ∧
    (sockCallback bigEndian (startup (some hub) 180) sock 200
        ⟨rcv.bytesRead, 100, rcv.sin_addr⟩).2.count Action.wakeUp = 1 ∧
    (sockCallback bigEndian (startup (some hub) 180) sock 181
        ⟨rcv.bytesRead, 180, rcv.sin_addr⟩).2.count Action.wakeUp = 1 ∧
    (sockCallback bigEndian (startup (some hub) 180) sock 200
        ⟨rcv.bytesRead, 200, rcv.sin_addr⟩).2.count Action.wakeUp = 0 ∧
    (sockCallback bigEndian (startup (some hub) 180) sock 150
        ⟨rcv.bytesRead, 50, rcv.sin_addr⟩).2.count Action.wakeUp = 0 := by
  have hgen : ∀ (g : Globals) (idle : Int) (r : Received), g.server = some hub →
      0 < r.bytesRead →
      (sockCallback bigEndian g sock idle r).2
        = (if idle > g.timeout ∧ r.data < idle then [Action.wakeUp] else []) := by
    intro g idle r h1 h2
    rw [sockCallback_satellite bigEndian g sock idle r hub h1 h2]
  refine ⟨hgen g localIdle rcv hrole hrecv, ?_, ?_, ?_, ?_, ?_, ?_⟩
  · rw [hgen g localIdle rcv hrole hrecv]
    split <;> simp
  · intro heq
    rw [hgen g localIdle rcv hrole hrecv, heq]
    simp
  · rw [hgen (startup (some hub) 180) 200 ⟨rcv.bytesRead, 100, rcv.sin_addr⟩ rfl hrecv]
    simp [startup]
  · rw [hgen (startup (some hub) 180) 181 ⟨rcv.bytesRead, 180, rcv.sin_addr⟩ rfl hrecv]
    simp [startup]
  · rw [hgen (startup (some hub) 180) 200 ⟨rcv.bytesRead, 200, rcv.sin_addr⟩ rfl hrecv]
    simp [startup]
  · rw [hgen (startup (some hub) 180) 150 ⟨rcv.bytesRead, 50, rcv.sin_addr⟩ rfl hrecv]
    simp [startup]

/-- Witness for C1: a Satellite of hub "10.0.0.1" with timeout 180, idle for 200 s,
receiving 100. -/
theorem C1_sockCallback_wake_rule_witness :
    ((startup (some "10.0.0.1".toList) 180).server = some "10.0.0.1".toList ∧
      (0 : Int) < (⟨8, 100, peerA⟩ : Received).bytesRead) ∧
    (sockCallback false (startup (some "10.0.0.1".toList) 180) 3 200 ⟨8, 100, peerA⟩).2
      = (if (200 : Int) > (startup (some "10.0.0.1".toList) 180).timeout ∧
          (⟨8, 100, peerA⟩ : Received).data < 200 then [Action.wakeUp] else []) :=
  ⟨⟨rfl, by decide⟩,
    (C1_sockCallback_wake_rule false (startup (some "10.0.0.1".toList) 180) "10.0.0.1".toList
      3 200 ⟨8, 100, peerA⟩ rfl (by decide)).1⟩

/-- C2 as stated fails: after datagrams from 10.0.0.1 and then 10.0.0.2 the broadcast
visits 10.0.0.2 first. -/
theorem C2_counterexample :
    (senders [ping peerA 5, ping peerB 6]).Nodup ∧
    (∀ x ∈ senders [ping peerA 5, ping peerB 6], x ≠ 0) ∧
    sockBroadcast false (fun _ => 3)
        (receiveAll false (startup none 180) [ping peerA 5, ping peerB 6]).clients 42
      = [Action.sendto peerB PORT 42, Action.sendto peerA PORT 42] ∧
    sockBroadcast false (fun _ => 3)
        (receiveAll false (startup none 180) [ping peerA 5, ping peerB 6]).clients 42
      ≠ (senders [ping peerA 5, ping peerB 6]).map (fun a => Action.sendto a PORT 42) := by
  decide

/-- C2, amended: for distinct non-zero senders a1..ak, k <= MAX_CLIENTS, received by a Hub
that started with the empty registry, the array holds MAX_CLIENTS - k zero slots followed by
ak, ..., a1, and the broadcast visits the peers in that order: last seen first. -/
theorem C2_broadcast_reverse_order (bigEndian : Bool) (timeout : Int)
    (arrivals : List Arrival) (socket : Nat → Int) (idle : Int)
    (hrecv : ∀ a ∈ arrivals, 0 < a.rcv.bytesRead)
    (hdistinct : (senders arrivals).Nodup)
    (hnonzero : ∀ x ∈ senders arrivals, x ≠ 0)
    (h32 : ∀ a ∈ arrivals, a.rcv.sin_addr < 2 ^ 32)
    (hk : arrivals.length ≤ MAX_CLIENTS)
    (hsock : ∀ i, socket i ≠ -1) :
    (receiveAll bigEndian (startup none timeout) arrivals).clients.slots
      = List.replicate (MAX_CLIENTS - arrivals.length) 0 ++ (senders arrivals).reverse ∧
    sockBroadcast bigEndian socket
        (receiveAll bigEndian (startup none timeout) arrivals).clients idle
      = (senders arrivals).reverse.map (fun a => Action.sendto a PORT idle) := by
  refine ⟨receiveAll_upto_max bigEndian timeout arrivals hrecv hdistinct hnonzero hk, ?_⟩
  have hinv := receiveAll_invariant bigEndian arrivals (startup none timeout) h32
    (startup_invariant none timeout).1 (startup_invariant none timeout).2
  rw [sockBroadcast_eq bigEndian socket idle hsock _ hinv.2,
    registered_upto_max bigEndian timeout arrivals hrecv hdistinct hnonzero hk]

/-- Witness for C2 (amended): the senders 10.0.0.1 then 10.0.0.2. -/
theorem C2_broadcast_reverse_order_witness :
    ((∀ a ∈ [ping peerA 5, ping peerB 6], 0 < a.rcv.bytesRead) ∧
      (senders [ping peerA 5, ping peerB 6]).Nodup ∧
      (∀ x ∈ senders [ping peerA 5, ping peerB 6], x ≠ 0) ∧
      (∀ a ∈ [ping peerA 5, ping peerB 6], a.rcv.sin_addr < 2 ^ 32) ∧
      [ping peerA 5, ping peerB 6].length ≤ MAX_CLIENTS ∧
      (∀ i : Nat, (fun _ => (3 : Int)) i ≠ -1)) ∧
    ((receiveAll false (startup none 180) [ping peerA 5, ping peerB 6]).clients.slots
      = List.replicate (MAX_CLIENTS - [ping peerA 5, ping peerB 6].length) 0
          ++ (senders [ping peerA 5, ping peerB 6]).reverse ∧
    sockBroadcast false (fun _ => 3)
        (receiveAll false (startup none 180) [ping peerA 5, ping peerB 6]).clients 42
      = (senders [ping peerA 5, ping peerB 6]).reverse.map (fun a => Action.sendto a PORT 42)) :=
  ⟨⟨by decide, by decide, by decide, by decide, by decide, fun _ => by simp⟩,
    C2_broadcast_reverse_order false 180 [ping peerA 5, ping peerB 6] (fun _ => 3) 42
      (by decide) (by decide) (by decide) (by decide) (by decide) (fun _ => by simp)⟩

/-- C3 as stated fails: a datagram of 3 bytes (not `sizeof(long int)`) is handled like any
other: a Hub replies and registers the sender, a Satellite wakes its display. -/
theorem C3_counterexample :
    (⟨3, 7, peerA⟩ : Received).bytesRead ≠ (sizeofLong : Int) ∧
    (sockCallback false (startup none 180) 3 42 ⟨3, 7, peerA⟩).2
      = [Action.sendto peerA PORT 42] ∧
    (sockCallback false (startup none 180) 3 42 ⟨3, 7, peerA⟩).1.clients.slots
      = [0, 0, 0, 0, 0, 0, 0, peerA] ∧
    (sockCallback false (startup none 180) 3 42 ⟨3, 7, peerA⟩).1.clients
      ≠ (startup none 180).clients ∧
    (sockCallback false (startup (some "10.0.0.1".toList) 180) 3 200 ⟨3, 7, peerA⟩).2
      = [Action.wakeUp] := by
  decide

/-- C3, amended: a receive that yields no byte (`recvfrom` returns 0 for an empty datagram,
or a negative value) is dropped: in either role `sockCallback` calls no `wakeUp()`, sends no
reply and leaves the registry and the other globals unchanged. -/
theorem C3_sockCallback_drops_empty (bigEndian : Bool) (g : Globals) (sock idle : Int)
    (rcv : Received) (hempty : rcv.bytesRead ≤ 0) :
    sockCallback bigEndian g sock idle rcv = (g, []) := by
  simp [sockCallback, hempty]

/-- Witness for C3 (amended): an empty datagram at a Hub. -/
theorem C3_sockCallback_drops_empty_witness :
    (⟨0, 7, peerA⟩ : Received).bytesRead ≤ 0 ∧
    sockCallback false (startup none 180) 3 42 ⟨0, 7, peerA⟩ = (startup none 180, []) :=
  ⟨by decide, C3_sockCallback_drops_empty false (startup none 180) 3 42 ⟨0, 7, peerA⟩
    (by decide)⟩

/-- C4 as stated fails when one of the addresses is 0.0.0.0: of the nine distinct senders
0, 1, ..., 8 the registry ends up holding 1, ..., 8, so it holds the ninth (8) and lacks the
first (0). -/
theorem C4_counterexample :
    (senders ninePings).Nodup ∧ ninePings.length = MAX_CLIENTS + 1 ∧
    (receiveAll false (startup none 180) ninePings).clients.slots = [8, 7, 6, 5, 4, 3, 2, 1] ∧
    stored (receiveAll false (startup none 180) ninePings).clients 8 ∧
    8 ∉ (senders ninePings).take MAX_CLIENTS ∧
    0 ∈ (senders ninePings).take MAX_CLIENTS ∧
    ¬ stored (receiveAll false (startup none 180) ninePings).clients 0 := by
  decide

/-- C4, amended: when the registry holds MAX_CLIENTS addresses, a datagram from any address
leaves every slot unchanged; and after datagrams from MAX_CLIENTS+1 distinct non-zero
addresses into the empty registry of a Hub, the registry holds exactly the first MAX_CLIENTS
of them and no later datagram changes it. -/
theorem C4_full_registry_rejects (bigEndian : Bool) (g : Globals) (sock idle : Int)
    (rcv : Received) (timeout : Int) (arrivals later : List Arrival)
    (hfull : cardinality g.clients = MAX_CLIENTS)
    (hrecv : ∀ a ∈ arrivals, 0 < a.rcv.bytesRead)
    (hdistinct : (senders arrivals).Nodup)
    (hnonzero : ∀ x ∈ senders arrivals, x ≠ 0)
    (hlen : arrivals.length = MAX_CLIENTS + 1) :
    (sockCallback bigEndian g sock idle rcv).1.clients = g.clients ∧
    (∀ x, stored (receiveAll bigEndian (startup none timeout) arrivals).clients x
      ↔ x ∈ (senders arrivals).take MAX_CLIENTS) ∧
    cardinality (receiveAll bigEndian (startup none timeout) arrivals).clients = MAX_CLIENTS ∧
    (receiveAll bigEndian (startup none timeout) (arrivals ++ later)).clients
      = (receiveAll bigEndian (startup none timeout) arrivals).clients := by
  have hslots := receiveAll_beyond_max bigEndian timeout arrivals hrecv hdistinct hnonzero
    (by omega)
  have hnz : ∀ x ∈ (senders arrivals).take MAX_CLIENTS, x ≠ 0 :=
    fun x hx => hnonzero x (List.mem_of_mem_take hx)
  have hz : 0 ∉ (receiveAll bigEndian (startup none timeout) arrivals).clients.slots := by
    rw [hslots]
    intro h0
    exact hnz 0 (List.mem_reverse.1 h0) rfl
  refine ⟨?_, ?_, ?_, ?_⟩
  · rcases (sockCallback_globals bigEndian g sock idle rcv).2.2 with h | h
    · exact h
    · rw [h, registerClient_full g.clients _ (zero_not_mem_of_cardinality_eq g.clients hfull)]
  · intro x
    unfold stored
    rw [hslots, List.mem_reverse]
    exact ⟨fun h => h.2, fun h => ⟨hnz x h, h⟩⟩
  · have hall : ∀ a ∈ (receiveAll bigEndian (startup none timeout) arrivals).clients.slots,
        decide (a ≠ 0) = true := by
      intro a ha
      have hne : a ≠ 0 := fun h0 => hz (h0 ▸ ha)
      simpa using hne
    unfold cardinality registered
    rw [List.filter_length_eq_length.2 hall, Clients.size_eq]
  · rw [receiveAll_append, receiveAll_full bigEndian later _ hz]

/-- Witness for C4 (amended): a Hub holding 1, ..., 8 meets a datagram from 10.0.0.1; and
the nine senders 1, ..., 9 are followed by one more datagram from 10. -/
theorem C4_full_registry_rejects_witness :
    (cardinality fullHub.clients = MAX_CLIENTS ∧
      (∀ a ∈ ninePeers, 0 < a.rcv.bytesRead) ∧
      (senders ninePeers).Nodup ∧
      (∀ x ∈ senders ninePeers, x ≠ 0) ∧
      ninePeers.length = MAX_CLIENTS + 1) ∧
    (sockCallback false fullHub 3 42 ⟨8, 7, peerA⟩).1.clients = fullHub.clients ∧
    (receiveAll false (startup none 180) (ninePeers ++ [ping 10 0])).clients
      = (receiveAll false (startup none 180) ninePeers).clients :=
  ⟨⟨by decide, by decide, by decide, by decide, by decide⟩,
    (C4_full_registry_rejects false fullHub 3 42 ⟨8, 7, peerA⟩ 180 ninePeers [ping 10 0]
      (by decide) (by decide) (by decide) (by decide) (by decide)).1,
    (C4_full_registry_rejects false fullHub 3 42 ⟨8, 7, peerA⟩ 180 ninePeers [ping 10 0]
      (by decide) (by decide) (by decide) (by decide) (by decide)).2.2.2⟩

/-- C5 as stated fails for the sender address 0.0.0.0: the empty registry has room and
does not hold it, yet the registration step stores nothing. -/
theorem C5_counterexample :
    cardinality (startup none 180).clients < MAX_CLIENTS ∧
    ¬ stored (startup none 180).clients 0 ∧
    (sockCallback false (startup none 180) 3 42 ⟨8, 7, 0⟩).1.clients
      = (startup none 180).clients ∧
    ¬ stored (sockCallback false (startup none 180) 3 42 ⟨8, 7, 0⟩).1.clients 0 ∧
    cardinality (sockCallback false (startup none 180) 3 42 ⟨8, 7, 0⟩).1.clients
      ≠ cardinality (startup none 180).clients + 1 := by
  decide

/-- C5, amended: for every registry holding fewer than MAX_CLIENTS addresses and every
non-zero sender address not already stored, the registration step of `sockCallback` in Hub
role stores the address, keeps every stored address and raises the cardinality by exactly
one; and pings from k <= MAX_CLIENTS (for instance 3) distinct non-zero addresses into the
empty registry leave exactly those addresses stored. -/
theorem C5_register_new_address (bigEndian : Bool) (g : Globals) (sock idle : Int)
    (rcv : Received) (timeout : Int) (arrivals : List Arrival)
    (hrole : g.server = none) (hrecv : 0 < rcv.bytesRead)
    (hroom : cardinality g.clients < MAX_CLIENTS)
    (hnonzero : rcv.sin_addr ≠ 0)
    (hnew : ¬ stored g.clients rcv.sin_addr)
    (hrecvs : ∀ a ∈ arrivals, 0 < a.rcv.bytesRead)
    (hdistinct : (senders arrivals).Nodup)
    (hnonzeros : ∀ x ∈ senders arrivals, x ≠ 0)
    (hk : arrivals.length ≤ MAX_CLIENTS) :
    stored (sockCallback bigEndian g sock idle rcv).1.clients rcv.sin_addr ∧
    (∀ x, stored g.clients x → stored (sockCallback bigEndian g sock idle rcv).1.clients x) ∧
    cardinality (sockCallback bigEndian g sock idle rcv).1.clients
      = cardinality g.clients + 1 ∧
    (∀ x, stored (receiveAll bigEndian (startup none timeout) arrivals).clients x
      ↔ x ∈ senders arrivals) ∧
    cardinality (receiveAll bigEndian (startup none timeout) arrivals).clients
      = arrivals.length := by
  have hclients : (sockCallback bigEndian g sock idle rcv).1.clients
      = registerClient g.clients rcv.sin_addr := by
    rw [sockCallback_hub bigEndian g sock idle rcv hrole hrecv]
  have habsent : rcv.sin_addr ∉ g.clients.slots := fun h => hnew ⟨hnonzero, h⟩
  obtain ⟨l1, l2, hs, hz2⟩ := exists_last_zero g.clients.slots
    (zero_mem_of_cardinality_lt g.clients hroom)
  have hr := registerClient_insert g.clients rcv.sin_addr l1 l2 hs hz2 hnonzero habsent
  obtain ⟨e1, e2⟩ := registered_insert g.clients rcv.sin_addr l1 l2 hs hnonzero hr
  have hreg := registered_upto_max bigEndian timeout arrivals hrecvs hdistinct hnonzeros hk
  rw [hclients]
  refine ⟨?_, ?_, ?_, ?_, ?_⟩
  · rw [← mem_registered, e2]
    simp
  · intro x hx
    rw [← mem_registered, e1] at hx
    rw [← mem_registered, e2]
    simp only [List.mem_append, List.mem_cons] at hx ⊢
    rcases hx with hx | hx
    · exact Or.inl hx
    · exact Or.inr (Or.inr hx)
  · unfold cardinality
    rw [e1, e2]
    simp only [List.length_append, List.length_cons]
    omega
  · intro x
    rw [← mem_registered, hreg, List.mem_reverse]
  · unfold cardinality
    rw [hreg, List.length_reverse]
    simp [senders]

/-- Witness for C5 (amended): 10.0.0.2 arrives at a Hub that knows 10.0.0.1; and three
pings from 1, 2, 3. -/
theorem C5_register_new_address_witness :
    ((receiveAll false (startup none 180) [ping peerA 5]).server = none ∧
      (0 : Int) < (⟨8, 6, peerB⟩ : Received).bytesRead ∧
      cardinality (receiveAll false (startup none 180) [ping peerA 5]).clients < MAX_CLIENTS ∧
      (⟨8, 6, peerB⟩ : Received).sin_addr ≠ 0 ∧
      ¬ stored (receiveAll false (startup none 180) [ping peerA 5]).clients
          (⟨8, 6, peerB⟩ : Received).sin_addr ∧
      (∀ a ∈ [ping 1 0, ping 2 0, ping 3 0], 0 < a.rcv.bytesRead) ∧
      (senders [ping 1 0, ping 2 0, ping 3 0]).Nodup ∧
      (∀ x ∈ senders [ping 1 0, ping 2 0, ping 3 0], x ≠ 0) ∧
      [ping 1 0, ping 2 0, ping 3 0].length ≤ MAX_CLIENTS) ∧
    cardinality (sockCallback false (receiveAll false (startup none 180) [ping peerA 5])
        3 42 ⟨8, 6, peerB⟩).1.clients
      = cardinality (receiveAll false (startup none 180) [ping peerA 5]).clients + 1 ∧
    (∀ x, stored (receiveAll false (startup none 180)
        [ping 1 0, ping 2 0, ping 3 0]).clients x
      ↔ x ∈ senders [ping 1 0, ping 2 0, ping 3 0]) :=
  ⟨⟨by decide, by decide, by decide, by decide, by decide, by decide, by decide, by decide,
      by decide⟩,
    (C5_register_new_address false (receiveAll false (startup none 180) [ping peerA 5]) 3 42
      ⟨8, 6, peerB⟩ 180 [ping 1 0, ping 2 0, ping 3 0] (by decide) (by decide) (by decide)
      (by decide) (by decide) (by decide) (by decide) (by decide) (by decide)).2.2.1,
    (C5_register_new_address false (receiveAll false (startup none 180) [ping peerA 5]) 3 42
      ⟨8, 6, peerB⟩ 180 [ping 1 0, ping 2 0, ping 3 0] (by decide) (by decide) (by decide)
      (by decide) (by decide) (by decide) (by decide) (by decide) (by decide)).2.2.2.1⟩

/-- C6: registering a known address is a no-op: for every registry and every sender address
already stored in it, the registration step of `sockCallback` in Hub role leaves the globals
unchanged; and for every sender address, handling two datagrams from it in a row yields the
same registry, with the same cardinality, as handling one. -/
theorem C6_register_known_noop (bigEndian : Bool) (g : Globals) (sock idle sock2 idle2 : Int)
    (rcv rcv2 : Received)
    (hrole : g.server = none) (hrecv : 0 < rcv.bytesRead) (hrecv2 : 0 < rcv2.bytesRead)
    (hsame : rcv2.sin_addr = rcv.sin_addr) :
    (stored g.clients rcv.sin_addr → (sockCallback bigEndian g sock idle rcv).1 = g) ∧
    (sockCallback bigEndian (sockCallback bigEndian g sock idle rcv).1 sock2 idle2 rcv2).1
      = (sockCallback bigEndian g sock idle rcv).1 ∧
    cardinality
        (sockCallback bigEndian (sockCallback bigEndian g sock idle rcv).1 sock2 idle2
          rcv2).1.clients
      = cardinality (sockCallback bigEndian g sock idle rcv).1.clients := by
  have h1 := sockCallback_hub bigEndian g sock idle rcv hrole hrecv
  have hrole1 : (sockCallback bigEndian g sock idle rcv).1.server = none := by
    rw [(sockCallback_globals bigEndian g sock idle rcv).1, hrole]
  have h2 := sockCallback_hub bigEndian (sockCallback bigEndian g sock idle rcv).1 sock2 idle2
    rcv2 hrole1 hrecv2
  have htwice : (sockCallback bigEndian (sockCallback bigEndian g sock idle rcv).1 sock2 idle2
      rcv2).1 = (sockCallback bigEndian g sock idle rcv).1 := by
    rw [h2, h1, hsame]
    simp only [registerClient_idem]
  refine ⟨?_, htwice, by rw [htwice]⟩
  intro hst
  rw [h1]
  simp only [registerClient_of_mem g.clients rcv.sin_addr hst.2]

/-- Witness for C6: 10.0.0.1 pings a Hub that already stores it. -/
theorem C6_register_known_noop_witness :
    ((receiveAll false (startup none 180) [ping peerA 5]).server = none ∧
      (0 : Int) < (⟨8, 6, peerA⟩ : Received).bytesRead ∧
      (0 : Int) < (⟨8, 9, peerA⟩ : Received).bytesRead ∧
      (⟨8, 9, peerA⟩ : Received).sin_addr = (⟨8, 6, peerA⟩ : Received).sin_addr ∧
      stored (receiveAll false (startup none 180) [ping peerA 5]).clients peerA) ∧
    (sockCallback false (receiveAll false (startup none 180) [ping peerA 5]) 3 42
        ⟨8, 6, peerA⟩).1 = receiveAll false (startup none 180) [ping peerA 5] :=
  ⟨⟨by decide, by decide, by decide, by decide, by decide⟩,
    (C6_register_known_noop false (receiveAll false (startup none 180) [ping peerA 5]) 3 42 4
      43 ⟨8, 6, peerA⟩ ⟨8, 9, peerA⟩ (by decide) (by decide) (by decide) (by decide)).1
      (by decide)⟩

/-- C7: in Hub role (`server` not set), for every datagram with `bytesRead > 0` the handler
makes exactly one `sockSend` call, for the printed sender address and the current local idle
sample: it emits exactly one datagram, addressed to the sender (port `PORT`) and carrying
that sample, whatever the registry holds (sender added, already present, or rejected because
the registry is full) and whatever value was received.  `sock` is the descriptor `socket()`
returned in `sockSend`; only when it is -1 is the send abandoned. -/
theorem C7_hub_replies_once (bigEndian : Bool) (g : Globals) (sock idle : Int)
    (rcv : Received)
    (hrole : g.server = none) (hrecv : 0 < rcv.bytesRead) (h32 : rcv.sin_addr < 2 ^ 32) :
    (sockCallback bigEndian g sock idle rcv).2
      = sockSend bigEndian sock (inet_ntoa bigEndian rcv.sin_addr) idle ∧
    sockAddr bigEndian (inet_ntoa bigEndian rcv.sin_addr) = rcv.sin_addr ∧
    (sock ≠ -1 →
      (sockCallback bigEndian g sock idle rcv).2 = [Action.sendto rcv.sin_addr PORT idle]) := by
  rw [sockCallback_hub bigEndian g sock idle rcv hrole hrecv]
  exact ⟨rfl, sockAddr_inet_ntoa bigEndian rcv.sin_addr h32,
    fun hsock => sockSend_inet_ntoa bigEndian sock rcv.sin_addr idle hsock h32⟩

/-- Witness for C7: a Hub with a full registry still replies to an unknown sender. -/
theorem C7_hub_replies_once_witness :
    (fullHub.server = none ∧ (0 : Int) < (⟨8, 7, peerA⟩ : Received).bytesRead ∧
      (⟨8, 7, peerA⟩ : Received).sin_addr < 2 ^ 32 ∧ (3 : Int) ≠ -1) ∧
    (sockCallback false fullHub 3 42 ⟨8, 7, peerA⟩).2
      = [Action.sendto (⟨8, 7, peerA⟩ : Received).sin_addr PORT 42] :=
  ⟨⟨by decide, by decide, by decide, by decide⟩,
    (C7_hub_replies_once false fullHub 3 42 ⟨8, 7, peerA⟩ (by decide) (by decide)
      (by decide)).2.2 (by decide)⟩

/-- C8: in Hub role, in every state the handler can reach from startup, `displayCallback`
emits on a display power event exactly one datagram for each registered peer, in slot
order, and nothing else; the payload is the local idle sample for
`kIOMessageDeviceWillPowerOff` and 0 for `kIOMessageDeviceHasPoweredOn`; the registered peers
are pairwise distinct and are exactly the stored addresses, so the number of datagrams to
an address is 1 if it is stored and 0 if not.  `socket i` is the descriptor `socket()`
returned for slot `i`. -/
theorem C8_hub_power_broadcast (bigEndian : Bool) (timeout : Int) (arrivals : List Arrival)
    (socket : Nat → Int) (idle : Int)
    (h32 : ∀ a ∈ arrivals, a.rcv.sin_addr < 2 ^ 32)
    (hsock : ∀ i, socket i ≠ -1) :
    displayCallback bigEndian (receiveAll bigEndian (startup none timeout) arrivals) socket idle
        kIOMessageDeviceWillPowerOff
      = (registered (receiveAll bigEndian (startup none timeout) arrivals).clients).map
          (fun a => Action.sendto a PORT idle) ∧
    displayCallback bigEndian (receiveAll bigEndian (startup none timeout) arrivals) socket idle
        kIOMessageDeviceHasPoweredOn
      = (registered (receiveAll bigEndian (startup none timeout) arrivals).clients).map
          (fun a => Action.sendto a PORT 0) ∧
    (registered (receiveAll bigEndian (startup none timeout) arrivals).clients).Nodup ∧
    (∀ x, x ∈ registered (receiveAll bigEndian (startup none timeout) arrivals).clients
      ↔ stored (receiveAll bigEndian (startup none timeout) arrivals).clients x) ∧
    (∀ x payload,
      (displayCallback bigEndian (receiveAll bigEndian (startup none timeout) arrivals) socket
          payload kIOMessageDeviceWillPowerOff).count (Action.sendto x PORT payload)
        = if stored (receiveAll bigEndian (startup none timeout) arrivals).clients x then 1
          else 0) := by
  have hinv := receiveAll_invariant bigEndian arrivals (startup none timeout) h32
    (startup_invariant none timeout).1 (startup_invariant none timeout).2
  have hrole : (receiveAll bigEndian (startup none timeout) arrivals).server = none := by
    rw [receiveAll_server]
    rfl
  have hoff : ∀ payload : Int,
      displayCallback bigEndian (receiveAll bigEndian (startup none timeout) arrivals) socket
          payload kIOMessageDeviceWillPowerOff
        = (registered (receiveAll bigEndian (startup none timeout) arrivals).clients).map
            (fun a => Action.sendto a PORT payload) := by
    intro payload
    simp only [displayCallback, hrole, true_or, if_true]
    exact sockBroadcast_eq bigEndian socket payload hsock _ hinv.2
  refine ⟨hoff idle, ?_, hinv.1, fun x => mem_registered _ x, ?_⟩
  rotate_left
  · intro x payload
    have hinj : Function.Injective (fun a : Nat => Action.sendto a PORT payload) := by
      intro a b hab
      simp only [Action.sendto.injEq, and_self, and_true] at hab
      exact hab
    rw [hoff payload, List.count_map_of_injective _ _ hinj, List.count_eq_of_nodup hinv.1]
    by_cases hx : stored (receiveAll bigEndian (startup none timeout) arrivals).clients x
    · rw [if_pos ((mem_registered _ x).2 hx), if_pos hx]
    · rw [if_neg (fun h => hx ((mem_registered _ x).1 h)), if_neg hx]
  · have hne : ¬ (kIOMessageDeviceHasPoweredOn = kIOMessageDeviceWillPowerOff) := by decide
    simp only [displayCallback, hrole, or_true, if_true, hne, if_false]
    exact sockBroadcast_eq bigEndian socket 0 hsock _ hinv.2

/-- Witness for C8: local idle 42 and the two registered peers 10.0.0.1 and 10.0.0.2
(10.0.0.1 pinged twice): PoweredOff sends 42 to both. -/
theorem C8_hub_power_broadcast_witness :
    ((∀ a ∈ [ping peerA 5, ping peerB 6, ping peerA 9], a.rcv.sin_addr < 2 ^ 32) ∧
      (∀ i : Nat, (fun _ => (3 : Int)) i ≠ -1)) ∧
    displayCallback false
        (receiveAll false (startup none 180) [ping peerA 5, ping peerB 6, ping peerA 9])
        (fun _ => 3) 42 kIOMessageDeviceWillPowerOff
      = (registered (receiveAll false (startup none 180)
          [ping peerA 5, ping peerB 6, ping peerA 9]).clients).map
          (fun a => Action.sendto a PORT 42) ∧
    registered (receiveAll false (startup none 180)
        [ping peerA 5, ping peerB 6, ping peerA 9]).clients = [peerB, peerA] :=
  ⟨⟨by decide, fun _ => by simp⟩,
    (C8_hub_power_broadcast false 180 [ping peerA 5, ping peerB 6, ping peerA 9] (fun _ => 3)
      42 (by decide) (fun _ => by simp)).1,
    by decide⟩

/-- C9 as stated fails: a Satellite of hub 10.0.0.1 wakes its display on a datagram from
10.0.0.2. -/
theorem C9_counterexample :
    (startup (some "10.0.0.1".toList) 180).server = some "10.0.0.1".toList ∧
    sockAddr false "10.0.0.1".toList = peerA ∧
    (⟨8, 100, peerB⟩ : Received).sin_addr ≠ sockAddr false "10.0.0.1".toList ∧
    (sockCallback false (startup (some "10.0.0.1".toList) 180) 3 200 ⟨8, 100, peerB⟩).2
      = [Action.wakeUp] := by
  decide

/-- C9, amended: the wake rule is applied to every datagram with `bytesRead > 0`, whoever
sent it: in Satellite role `sockCallback` does for a datagram from any address exactly what
it does for the same datagram from the configured hub address, and calls `wakeUp()` once if
`idle > timeout` and `data < idle`, not at all otherwise. -/
theorem C9_wake_ignores_sender (bigEndian : Bool) (g : Globals) (hub : List Char)
    (sock idle bytesRead data : Int) (addr : Nat)
    (hrole : g.server = some hub) (hrecv : 0 < bytesRead) :
    sockCallback bigEndian g sock idle ⟨bytesRead, data, addr⟩
      = sockCallback bigEndian g sock idle ⟨bytesRead, data, sockAddr bigEndian hub⟩ ∧
    (sockCallback bigEndian g sock idle ⟨bytesRead, data, addr⟩).2.count Action.wakeUp
      = (if idle > g.timeout ∧ data < idle then 1 else 0) := by
  rw [sockCallback_satellite bigEndian g sock idle ⟨bytesRead, data, addr⟩ hub hrole hrecv,
    sockCallback_satellite bigEndian g sock idle ⟨bytesRead, data, sockAddr bigEndian hub⟩ hub
      hrole hrecv]
  refine ⟨rfl, ?_⟩
  simp only
  split <;> simp

/-- Witness for C9 (amended): the Satellite of hub 10.0.0.1 and a datagram from 10.0.0.2. -/
theorem C9_wake_ignores_sender_witness :
    ((startup (some "10.0.0.1".toList) 180).server = some "10.0.0.1".toList ∧
      (0 : Int) < 8) ∧
    peerB ≠ sockAddr false "10.0.0.1".toList ∧
    (sockCallback false (startup (some "10.0.0.1".toList) 180) 3 200
        ⟨8, 100, peerB⟩).2.count Action.wakeUp
      = (if (200 : Int) > (startup (some "10.0.0.1".toList) 180).timeout ∧ (100 : Int) < 200
          then 1 else 0) :=
  ⟨⟨rfl, by decide⟩, by decide,
    (C9_wake_ignores_sender false (startup (some "10.0.0.1".toList) 180) "10.0.0.1".toList 3
      200 8 100 peerB rfl (by decide)).2⟩

/-- C10: `sockAddr` inverts dotted-quad formatting: for all octets a, b, c, d in 0..255 it
maps the decimal text "a.b.c.d" to the 32-bit address whose bytes in network order are
a, b, c, d; so for the address `inet_ntoa` formatted as that text, the datagram `sockSend`
emits for a reply or a broadcast goes to exactly that address. -/
theorem C10_sockAddr_inverts_inet_ntoa (bigEndian : Bool) (a b c d : Nat) (sock idle : Int)
    (ha : a < 256) (hb : b < 256) (hc : c < 256) (hd : d < 256) (hsock : sock ≠ -1) :
    sockAddr bigEndian (dottedQuad a b c d)
      = htonl bigEndian (a * 2 ^ 24 + b * 2 ^ 16 + c * 2 ^ 8 + d) ∧
    netBytes bigEndian (sockAddr bigEndian (dottedQuad a b c d)) = [a, b, c, d] ∧
    sockAddr bigEndian (dottedQuad a b c d) < 2 ^ 32 ∧
    (∀ addr, addr < 2 ^ 32 → netBytes bigEndian addr = [a, b, c, d] →
      inet_ntoa bigEndian addr = dottedQuad a b c d ∧
      sockAddr bigEndian (inet_ntoa bigEndian addr) = addr ∧
      sockSend bigEndian sock (inet_ntoa bigEndian addr) idle
        = [Action.sendto addr PORT idle]) := by
  have h1 := sockAddr_dottedQuad bigEndian a b c d ha hb hc hd
  refine ⟨h1, ?_, ?_, ?_⟩
  · rw [h1]
    exact netBytes_htonl bigEndian a b c d ha hb hc hd
  · rw [h1]
    exact htonl_lt bigEndian _
  · intro addr h32 hbytes
    refine ⟨?_, sockAddr_inet_ntoa bigEndian addr h32,
      sockSend_inet_ntoa bigEndian sock addr idle hsock h32⟩
    simp only [netBytes, List.cons.injEq, and_true] at hbytes
    obtain ⟨e1, e2, e3, e4⟩ := hbytes
    simp only [inet_ntoa, e1, e2, e3, e4]

/-- Witness for C10: the text "10.0.0.1" on a little-endian host. -/
theorem C10_sockAddr_inverts_inet_ntoa_witness :
    ((10 : Nat) < 256 ∧ (0 : Nat) < 256 ∧ (0 : Nat) < 256 ∧ (1 : Nat) < 256 ∧
      (3 : Int) ≠ -1) ∧
    dottedQuad 10 0 0 1 = "10.0.0.1".toList ∧
    netBytes false (sockAddr false (dottedQuad 10 0 0 1)) = [10, 0, 0, 1] :=
  ⟨⟨by decide, by decide, by decide, by decide, by decide⟩, by decide,
    (C10_sockAddr_inverts_inet_ntoa false 10 0 0 1 3 42 (by decide) (by decide) (by decide)
      (by decide) (by decide)).2.1⟩

end IdleSync
